import Mathlib

/-!
Shallow embedding of the sbrk-based first-fit allocator in `src/main.c`
(malloc / free / calloc / realloc over a singly-linked list of block
headers), together with proofs of the specification claims.

Modelling conventions:
* Addresses are natural numbers (byte offsets); the C null pointer is
  `Option.none` at the API boundary.
* The heap is a single contiguous extent from `base` up to the moving
  program break `brk`; the OS is modelled by `brkLimit`: a positive
  `sbrk` succeeds exactly when the new break stays within the limit
  (C: `sbrk` returns `(void*)-1` on failure), and a negative `sbrk`
  always succeeds, as in the source's shrink path.
* The free list (globals `head`, `tail` and the `next` fields) is
  represented by `blocks : List Block` in creation order: `head` is the
  first element, `tail` the last, and the `next` pointer of each block
  points at the following element (`none` for the last).  This is
  exactly the shape the source maintains: new blocks are appended at
  `tail`, and trimming removes the last element.
* Each block records its header address `addr`, its payload size
  `size`, the `is_free` flag, and the payload bytes `data` (needed for
  calloc's `memset` and realloc's `memcpy`).  The payload of a block
  starts at `addr + headerSize`.
* Machine arithmetic: `size_t` values wrap modulo `2 ^ 64`
  (`sizeTMod`); the only place the source relies on wraparound is
  calloc's overflow check, which is modelled with an explicit `%`.
* C layout of `union header`: the sizes and alignments of `size_t`,
  `unsigned` and a pointer follow the System V x86-64 ABI (the platform
  implied by `<unistd.h>`/`sbrk`/pthreads on a modern 64-bit Unix),
  and the struct/union layout rules of C are computed explicitly below
  (`sizeofUnionHeader`).
-/

namespace Alloc

/-- Width of `size_t` on the target platform: values live in `[0, 2^64)`. -/
def sizeTMod : Nat := 2 ^ 64

/-- Round `n` up to the next multiple of the alignment `a`. -/
def alignUp (n a : Nat) : Nat := ((n + a - 1) / a) * a

/-- sizeof(size_t) under the System V x86-64 ABI. -/
def sizeofSizeT : Nat := 8

/-- alignof(size_t) under the System V x86-64 ABI. -/
def alignofSizeT : Nat := 8

/-- sizeof(unsigned) under the System V x86-64 ABI. -/
def sizeofUnsigned : Nat := 4

/-- alignof(unsigned) under the System V x86-64 ABI. -/
def alignofUnsigned : Nat := 4

/-- sizeof(a pointer) under the System V x86-64 ABI. -/
def sizeofPtr : Nat := 8

/-- alignof(a pointer) under the System V x86-64 ABI. -/
def alignofPtr : Nat := 8

/-- Alignment of the anonymous struct `{ size_t size; unsigned is_free;
union header *next; }`: the maximum alignment of its members. -/
def alignofHeaderStruct : Nat := max alignofSizeT (max alignofUnsigned alignofPtr)

/-- Size of the anonymous struct member of `union header`, laid out by the
C rules: each field is placed at its alignment, and the total is rounded
up to the struct's alignment.  `size` sits at offset 0, `is_free` at
offset 8, `next` at offset 16 (rounded up from 12 to pointer alignment),
and the total 24 is already a multiple of 8. -/
def sizeofHeaderStruct : Nat :=
  alignUp (alignUp (alignUp (alignUp 0 alignofSizeT + sizeofSizeT) alignofUnsigned
      + sizeofUnsigned) alignofPtr + sizeofPtr) alignofHeaderStruct

/-- sizeof(ALIGN), i.e. of `char[16]`. -/
def sizeofALIGN : Nat := 16

/-- sizeof(union header): the size of the largest member, rounded up to the
union's alignment (the maximum member alignment; `char[16]` has
alignment 1). -/
def sizeofUnionHeader : Nat :=
  alignUp (max sizeofHeaderStruct sizeofALIGN) (max alignofHeaderStruct 1)

/-- The fixed distance between a block's header address and its payload
address: `(header_t *)block - 1` and `(void *)(header + 1)` in the
source both use `sizeof(header_t)` as the one constant offset. -/
def headerSize : Nat := sizeofUnionHeader

/-- One block ever carved from the heap: the fields of `struct s` inside
`union header` (`next` is represented by list order, see `nextOf`),
plus the payload bytes that follow the header in memory. -/
structure Block where
  addr : Nat
  size : Nat
  is_free : Bool
  data : List Nat
  deriving DecidableEq, Repr

/-- The allocator's entire mutable state: the free list (globals `head` /
`tail` / the `next` chain) in creation order, and the program break.
`base` is where the heap extent starts and `brkLimit` models the point
past which the OS refuses to grow the break. -/
structure AllocState where
  base : Nat
  blocks : List Block
  brk : Nat
  brkLimit : Nat
  deriving DecidableEq, Repr

/-- The state before any allocation: empty list, break at the heap base. -/
def initState (base limit : Nat) : AllocState :=
  { base := base, blocks := [], brk := base, brkLimit := limit }

/-- Value of the global `head` as an address (`none` when the list is
empty, i.e. `head == NULL`). -/
def listHeadAddr (st : AllocState) : Option Nat :=
  st.blocks.head?.map Block.addr

/-- Value of the global `tail` as an address (`none` when `tail == NULL`). -/
def listTailAddr (st : AllocState) : Option Nat :=
  st.blocks.getLast?.map Block.addr

/-- The `next` field of the block whose header address is `a`: the address
of the following block in creation order, `none` for the last block
(and `none` when no block has address `a`). -/
def nextOf (a : Nat) : List Block → Option Nat
  | [] => none
  | b :: rest => if b.addr = a then rest.head?.map Block.addr else nextOf a rest

/-- Positive `sbrk`: grow the break by `total` bytes, returning the prior
break on success and `none` (C: `(void*)-1`) when the OS refuses. -/
def sbrkGrow (total : Nat) (st : AllocState) : Option Nat × AllocState :=
  if st.brk + total ≤ st.brkLimit then
    (some st.brk, { st with brk := st.brk + total })
  else
    (none, st)

/-- `get_free_block(size)` from the source: walk the list from `head` and
return the first block with `is_free` set whose recorded size is at
least `size`; `NULL` (`none`) if the walk falls off the end. -/
def get_free_block (size : Nat) : List Block → Option Block
  | [] => none
  | b :: rest =>
      if b.is_free && size ≤ b.size then some b else get_free_block size rest

/-- Mark the block whose header address is `a` as in use
(`header->s.is_free = 0`); every other field is untouched. -/
def setUsedAt (a : Nat) (bs : List Block) : List Block :=
  bs.map fun b => if b.addr = a then { b with is_free := false } else b

/-- `malloc(size)` from the source.  Zero size returns `NULL`.  Otherwise
first-fit reuse (only flipping `is_free`), else grow the heap by
`sizeof(header_t) + size`, append the fresh block after `tail`, and
return its payload address `(void *)(header + 1)`.  The payload bytes
of freshly grown memory are modelled as zero; no theorem below depends
on their initial value. -/
def malloc (size : Nat) (st : AllocState) : Option Nat × AllocState :=
  if size = 0 then (none, st)
  else
    match get_free_block size st.blocks with
    | some header =>
        (some (header.addr + headerSize),
         { st with blocks := setUsedAt header.addr st.blocks })
    | none =>
        let total : Nat := headerSize + size
        match sbrkGrow total st with
        | (none, st') => (none, st')
        | (some blockAddr, st') =>
            let header : Block :=
              { addr := blockAddr, size := size, is_free := false,
                data := List.replicate size 0 }
            (some (blockAddr + headerSize),
             { st' with blocks := st'.blocks ++ [header] })

/-- Recover the block whose payload address is `p`
(C: `header = (header_t *)block - 1`). -/
def findBlock (p : Nat) (st : AllocState) : Option Block :=
  st.blocks.find? fun b => b.addr + headerSize == p

/-- Payload bytes of the block whose payload address is `p` (empty when no
such block exists). -/
def payloadData (p : Nat) (st : AllocState) : List Nat :=
  (findBlock p st).elim [] Block.data

/-- Mark the block whose header address is `a` as free
(`header->s.is_free = 1`). -/
def setFreeAt (a : Nat) (bs : List Block) : List Block :=
  bs.map fun b => if b.addr = a then { b with is_free := true } else b

/-- `free(block)` from the source.  `free(NULL)` is a no-op.  Recover the
header at `block - 1`; if the block's payload ends exactly at the
current break, unlink the tail (empty the list when `head == tail`,
otherwise drop the last element — the predecessor scan sets the
predecessor's `next` to `NULL` and makes it `tail`) and shrink the
break by `sizeof(header_t) + header->s.size`; otherwise just set
`is_free`.  Passing an address that is not a payload address of some
block is undefined behaviour in C; the model makes it a no-op, and no
claim concerns it. -/
def free (block : Option Nat) (st : AllocState) : AllocState :=
  match block with
  | none => st
  | some p =>
      match findBlock p st with
      | none => st
      | some header =>
          if p + header.size = st.brk then
            let blocks' :=
              if listHeadAddr st = listTailAddr st then ([] : List Block)
              else st.blocks.dropLast
            { st with blocks := blocks',
                      brk := st.brk - (headerSize + header.size) }
          else
            { st with blocks := setFreeAt header.addr st.blocks }

/-- `memset(block, 0, n)` on a payload: the first `n` bytes become zero,
the rest are untouched. -/
def memsetZero (n : Nat) (d : List Nat) : List Nat :=
  List.replicate n 0 ++ d.drop n

/-- Apply `memset(p, 0, n)` to the state: zero the first `n` payload bytes
of the block whose payload address is `p`. -/
def zeroFillAt (p n : Nat) (st : AllocState) : AllocState :=
  { st with blocks := st.blocks.map fun b =>
      if b.addr + headerSize = p then { b with data := memsetZero n b.data }
      else b }

/-- `calloc(num, nsize)` from the source: reject zero arguments, compute
`size = num * nsize` in `size_t` arithmetic (wrapping modulo `2^64`),
reject when `nsize != size / num` (the overflow check), then
`malloc(size)` and `memset` the result to zero. -/
def calloc (num nsize : Nat) (st : AllocState) : Option Nat × AllocState :=
  if num = 0 || nsize = 0 then (none, st)
  else
    let size : Nat := (num * nsize) % sizeTMod
    if nsize ≠ size / num then (none, st)
    else
      match malloc size st with
      | (none, st') => (none, st')
      | (some p, st') => (some p, zeroFillAt p size st')

/-- Overwrite the leading bytes of `d` with `src`
(`memcpy` into a payload; bytes past `src.length` are untouched). -/
def copyInto (src d : List Nat) : List Nat :=
  src ++ d.drop src.length

/-- Apply `memcpy(dst, ·, src.length)` to the state: the block whose
payload address is `dst` receives `src` at offset 0. -/
def memcpyAt (dst : Nat) (src : List Nat) (st : AllocState) : AllocState :=
  { st with blocks := st.blocks.map fun b =>
      if b.addr + headerSize = dst then { b with data := copyInto src b.data }
      else b }

/-- `realloc(block, size)` from the source.  A null `block` or zero `size`
is delegated to `malloc(size)`.  Otherwise recover the header; if its
recorded size already covers the request, return `block` unchanged.
Otherwise `malloc(size)`; on success copy `header->s.size` bytes from
the old payload into the new one, `free` the old block, and return the
new address; on failure return `NULL` and leave the old block alone. -/
def realloc (block : Option Nat) (size : Nat) (st : AllocState) :
    Option Nat × AllocState :=
  match block with
  | none => malloc size st
  | some p =>
      if size = 0 then malloc size st
      else
        match findBlock p st with
        | none => (none, st)
        | some header =>
            if size ≤ header.size then (some p, st)
            else
              match malloc size st with
              | (none, st') => (none, st')
              | (some ret, st') =>
                  let src := (payloadData p st').take header.size
                  (some ret, free (some p) (memcpyAt ret src st'))

/-- Client stores: write `bytes` into the payload at address `p` (the
caller filling its own block between allocate and release; the engine
itself never does this). -/
def poke (p : Nat) (bytes : List Nat) (st : AllocState) : AllocState :=
  memcpyAt p bytes st

/-- End address of a contiguously laid out run of blocks starting at
`base`: each block occupies `headerSize + size` bytes. -/
def blocksEnd (base : Nat) : List Block → Nat
  | [] => base
  | b :: rest => blocksEnd (b.addr + headerSize + b.size) rest

/-- Blocks laid out contiguously from `base`: each header sits exactly at
the end of the previous block. -/
def contiguousFrom (base : Nat) : List Block → Bool
  | [] => true
  | b :: rest => b.addr == base && contiguousFrom (b.addr + headerSize + b.size) rest

/-- Well-formed allocator state: the blocks tile the heap extent
contiguously from `base` and the break sits exactly at the end of the
last block — the invariant the source maintains (growth appends at the
break, trimming removes the last block). -/
def wf (st : AllocState) : Bool :=
  contiguousFrom st.base st.blocks && st.brk == blocksEnd st.base st.blocks

/-- Concrete states used to instantiate the theorems below: a heap at base
4096 with room to grow, one block of size 2 whose payload (at address
4120) the client has filled with the bytes `[7, 7]`. -/
def exSt1 : AllocState := (malloc 2 (initState 4096 8192)).2

/-- `exSt1` after the client stores `[7, 7]` into its block. -/
def exSt2 : AllocState := poke 4120 [7, 7] exSt1

/-- `exSt2` after a second allocation of size 1 (payload at 4146), so the
first block is no longer heap-terminal. -/
def exSt3 : AllocState := (malloc 1 exSt2).2

/-- `exSt3` after releasing the first block: it is marked free (size 2,
contents `[7, 7]`), the second block stays in use. -/
def exSt4 : AllocState := free (some 4120) exSt3

/-- A one-block state whose break limit 4123 forbids any further growth:
the next `sbrk` request must fail. -/
def exStTight : AllocState :=
  { base := 4096, blocks := exSt2.blocks, brk := exSt2.brk, brkLimit := 4123 }

/-- The first example block while in use, holding the client's bytes. -/
def exB1used : Block := { addr := 4096, size := 2, is_free := false, data := [7, 7] }

/-- The first example block after release. -/
def exB1free : Block := { addr := 4096, size := 2, is_free := true, data := [7, 7] }

/-- The second example block (payload at 4146, heap-terminal in `exSt3`). -/
def exB2 : Block := { addr := 4122, size := 1, is_free := false, data := [0] }

/-- State after a single `malloc 1` from the pristine heap. -/
def exStOne : AllocState := (malloc 1 (initState 4096 8192)).2

/-! ## Lemmas about the first-fit search -/

/-- A successful `get_free_block` returns a free block of sufficient size,
and every block before it in the list fails the fit test. -/
theorem get_free_block_some {size : Nat} {bs : List Block} {b : Block}
    (h : get_free_block size bs = some b) :
    b.is_free = true ∧ size ≤ b.size ∧
      ∃ l1 l2, bs = l1 ++ b :: l2 ∧
        ∀ c ∈ l1, ¬(c.is_free = true ∧ size ≤ c.size) := by
  induction bs with
  | nil => simp [get_free_block] at h
  | cons x rest ih =>
      by_cases hx : (x.is_free && decide (size ≤ x.size)) = true
      · rw [show get_free_block size (x :: rest)
              = if x.is_free && decide (size ≤ x.size) then some x
                else get_free_block size rest from rfl, if_pos hx] at h
        obtain ⟨h1, h2⟩ : x.is_free = true ∧ size ≤ x.size := by simpa using hx
        cases h
        exact ⟨h1, h2, [], rest, rfl, by simp⟩
      · rw [show get_free_block size (x :: rest)
              = if x.is_free && decide (size ≤ x.size) then some x
                else get_free_block size rest from rfl, if_neg hx] at h
        obtain ⟨h1, h2, l1, l2, hrest, hall⟩ := ih h
        refine ⟨h1, h2, x :: l1, l2, by rw [hrest]; rfl, ?_⟩
        intro c hc
        rcases List.mem_cons.mp hc with hcx | hcl
        · subst hcx
          intro ⟨a1, a2⟩
          exact hx (by simp [a1, a2])
        · exact hall c hcl

/-- `get_free_block` comes back empty exactly when no block in the list is
free with sufficient size. -/
theorem get_free_block_none {size : Nat} {bs : List Block} :
    get_free_block size bs = none ↔
      ∀ b ∈ bs, ¬(b.is_free = true ∧ size ≤ b.size) := by
  induction bs with
  | nil => simp [get_free_block]
  | cons x rest ih =>
      by_cases hx : (x.is_free && decide (size ≤ x.size)) = true
      · rw [show get_free_block size (x :: rest)
              = if x.is_free && decide (size ≤ x.size) then some x
                else get_free_block size rest from rfl, if_pos hx]
        obtain ⟨h1, h2⟩ : x.is_free = true ∧ size ≤ x.size := by simpa using hx
        constructor
        · intro hsome
          exact Option.noConfusion hsome
        · intro hall
          exact absurd ⟨h1, h2⟩ (hall x (List.mem_cons_self x rest))
      · rw [show get_free_block size (x :: rest)
              = if x.is_free && decide (size ≤ x.size) then some x
                else get_free_block size rest from rfl, if_neg hx]
        rw [ih]
        constructor
        · intro hall c hc
          rcases List.mem_cons.mp hc with hcx | hcl
          · subst hcx
            intro ⟨a1, a2⟩
            exact hx (by simp [a1, a2])
          · exact hall c hcl
        · intro hall c hc
          exact hall c (List.mem_cons_of_mem x hc)

/-- Claim C2: the free-block search returns the earliest-created block that is
free and large enough — every earlier block fails the fit test — and
returns none exactly when no block in the list satisfies both
conditions. -/
theorem free_list_first_fit (size : Nat) (bs : List Block) :
    (∀ b, get_free_block size bs = some b →
        b.is_free = true ∧ size ≤ b.size ∧
          ∃ l1 l2, bs = l1 ++ b :: l2 ∧
            ∀ c ∈ l1, ¬(c.is_free = true ∧ size ≤ c.size)) ∧
    (get_free_block size bs = none ↔
        ∀ b ∈ bs, ¬(b.is_free = true ∧ size ≤ b.size)) :=
  ⟨fun _ h => get_free_block_some h, get_free_block_none⟩

/-- Claim C3: when malloc is satisfied by reusing a free block, the reused
block's recorded size (and its payload) is left unchanged and at least
the requested size; only its `is_free` field is flipped to false, every
other block is untouched, the break does not move, and the block's
usable address (header address plus `headerSize`) is returned. -/
theorem malloc_reuse_frame (size : Nat) (st : AllocState) (h : Block)
    (hsz : size ≠ 0) (hfind : get_free_block size st.blocks = some h) :
    malloc size st =
      (some (h.addr + headerSize),
        { st with blocks := st.blocks.map fun b =>
            if b.addr = h.addr then
              { addr := b.addr, size := b.size, is_free := false,
                data := b.data }
            else b }) ∧
    h.is_free = true ∧ size ≤ h.size := by
  obtain ⟨h1, h2, _⟩ := get_free_block_some hfind
  refine ⟨?_, h1, h2⟩
  rw [show malloc size st
        = if size = 0 then (none, st)
          else
            match get_free_block size st.blocks with
            | some header =>
                (some (header.addr + headerSize),
                 { st with blocks := setUsedAt header.addr st.blocks })
            | none =>
                match sbrkGrow (headerSize + size) st with
                | (none, st') => (none, st')
                | (some blockAddr, st') =>
                    (some (blockAddr + headerSize),
                     { st' with blocks := st'.blocks ++
                        [{ addr := blockAddr, size := size, is_free := false,
                           data := List.replicate size 0 }] }) from rfl]
  rw [if_neg hsz, hfind]
  rfl

/-! ## Layout lemmas for the trimming path -/

theorem headerSize_pos : 0 < headerSize := by decide

theorem contiguousFrom_cons {base : Nat} {b : Block} {rest : List Block}
    (hc : contiguousFrom base (b :: rest) = true) :
    b.addr = base ∧ contiguousFrom (b.addr + headerSize + b.size) rest = true := by
  simpa [contiguousFrom, Bool.and_eq_true] using hc

theorem le_blocksEnd (base : Nat) (bs : List Block)
    (hc : contiguousFrom base bs = true) : base ≤ blocksEnd base bs := by
  induction bs generalizing base with
  | nil => exact Nat.le_refl base
  | cons b rest ih =>
      obtain ⟨hb, hrest⟩ := contiguousFrom_cons hc
      have h2 := ih (b.addr + headerSize + b.size) hrest
      show base ≤ blocksEnd (b.addr + headerSize + b.size) rest
      omega

theorem lt_blocksEnd (base : Nat) (b : Block) (rest : List Block)
    (hc : contiguousFrom base (b :: rest) = true) :
    base < blocksEnd base (b :: rest) := by
  obtain ⟨hb, hrest⟩ := contiguousFrom_cons hc
  have h2 := le_blocksEnd (b.addr + headerSize + b.size) rest hrest
  have h3 := headerSize_pos
  show base < blocksEnd (b.addr + headerSize + b.size) rest
  omega

theorem base_le_addr (base : Nat) (bs : List Block)
    (hc : contiguousFrom base bs = true) : ∀ x ∈ bs, base ≤ x.addr := by
  induction bs generalizing base with
  | nil => intro x hx; cases hx
  | cons b rest ih =>
      obtain ⟨hb, hrest⟩ := contiguousFrom_cons hc
      intro x hx
      rcases List.mem_cons.mp hx with rfl | hxr
      · omega
      · have := ih (b.addr + headerSize + b.size) hrest x hxr
        omega

/-- In a contiguous layout only the last block's payload can end at the
extent's end: a block whose end address equals `blocksEnd` is the last
element of the list. -/
theorem terminal_is_last (base : Nat) (bs : List Block) (h : Block)
    (hc : contiguousFrom base bs = true) (hm : h ∈ bs)
    (he : h.addr + headerSize + h.size = blocksEnd base bs) :
    bs.getLast? = some h := by
  induction bs generalizing base with
  | nil => cases hm
  | cons b rest ih =>
      obtain ⟨hb, hrest⟩ := contiguousFrom_cons hc
      rcases List.mem_cons.mp hm with rfl | hmr
      · cases rest with
        | nil => rfl
        | cons c rs =>
            exfalso
            have hlt := lt_blocksEnd (h.addr + headerSize + h.size) c rs hrest
            have heq : blocksEnd base (h :: c :: rs)
                = blocksEnd (h.addr + headerSize + h.size) (c :: rs) := rfl
            omega
      · cases rest with
        | nil => cases hmr
        | cons c rs =>
            rw [List.getLast?_cons_cons]
            exact ih (b.addr + headerSize + b.size) hrest hmr he

theorem contiguousFrom_dropLast (base : Nat) (bs : List Block)
    (hc : contiguousFrom base bs = true) :
    contiguousFrom base bs.dropLast = true := by
  induction bs generalizing base with
  | nil => rfl
  | cons b rest ih =>
      cases rest with
      | nil => rfl
      | cons c rs =>
          obtain ⟨hb, hrest⟩ := contiguousFrom_cons hc
          subst hb
          have ihr := ih (b.addr + headerSize + b.size) hrest
          show (b.addr == b.addr && contiguousFrom (b.addr + headerSize + b.size)
              ((c :: rs).dropLast)) = true
          simp [ihr]

/-- The last block of a contiguous list has no successor: `nextOf` its
address is `none`. -/
theorem nextOf_getLast (base : Nat) (bs : List Block) (p : Block)
    (hc : contiguousFrom base bs = true) (hl : bs.getLast? = some p) :
    nextOf p.addr bs = none := by
  induction bs generalizing base with
  | nil => rfl
  | cons b rest ih =>
      obtain ⟨hb, hrest⟩ := contiguousFrom_cons hc
      cases rest with
      | nil =>
          obtain rfl : b = p := by simpa using hl
          show (if b.addr = b.addr then ([] : List Block).head?.map Block.addr
              else nextOf b.addr []) = none
          simp
      | cons c rs =>
          have hl' : (c :: rs).getLast? = some p := by
            rw [← List.getLast?_cons_cons]; exact hl
          have hpmem : p ∈ c :: rs := by
            obtain ⟨ys, hys⟩ := List.getLast?_eq_some_iff.mp hl'
            rw [hys]
            exact List.mem_append_right ys (List.mem_cons_self p [])
          have hple := base_le_addr (b.addr + headerSize + b.size) (c :: rs)
            hrest p hpmem
          have hne : b.addr ≠ p.addr := by
            have := headerSize_pos
            omega
          show (if b.addr = p.addr then (c :: rs).head?.map Block.addr
              else nextOf p.addr (c :: rs)) = none
          rw [if_neg hne]
          exact ih (b.addr + headerSize + b.size) hrest hl'

/-- Membership and payload-address facts extracted from a successful
`findBlock`. -/
theorem findBlock_some {p : Nat} {st : AllocState} {h : Block}
    (hfind : findBlock p st = some h) :
    h ∈ st.blocks ∧ h.addr + headerSize = p := by
  refine ⟨List.mem_of_find?_eq_some hfind, ?_⟩
  have := List.find?_some hfind
  simpa using this

/-- Claim C1: releasing a heap-terminal block (its payload ends exactly at the
break) trims the heap: the freed block is the list's tail; if it is
also the head the list becomes empty, otherwise the last element is
unlinked and the predecessor — the block whose `next` was the freed
block — becomes the new tail with `next` set to none; and the break
decreases by exactly `headerSize + size`. -/
theorem free_terminal_trims (st : AllocState) (p : Nat) (h : Block)
    (hwf : wf st = true)
    (hfind : findBlock p st = some h)
    (hterm : p + h.size = st.brk) :
    st.blocks.getLast? = some h ∧
    (listHeadAddr st = listTailAddr st → (free (some p) st).blocks = []) ∧
    (listHeadAddr st ≠ listTailAddr st →
      (free (some p) st).blocks = st.blocks.dropLast ∧
      ∀ q, st.blocks.dropLast.getLast? = some q →
        listTailAddr (free (some p) st) = some q.addr ∧
        nextOf q.addr (free (some p) st).blocks = none) ∧
    st.brk = (free (some p) st).brk + (headerSize + h.size) := by
  obtain ⟨hcont, hbrk⟩ : contiguousFrom st.base st.blocks = true ∧
      st.brk = blocksEnd st.base st.blocks := by
    simpa [wf, Bool.and_eq_true] using hwf
  obtain ⟨hmem, hp⟩ := findBlock_some hfind
  have hlast : st.blocks.getLast? = some h :=
    terminal_is_last st.base st.blocks h hcont hmem (by omega)
  have hfree : free (some p) st =
      { st with
        blocks := if listHeadAddr st = listTailAddr st then []
                  else st.blocks.dropLast,
        brk := st.brk - (headerSize + h.size) } := by
    show (match findBlock p st with
      | none => st
      | some header =>
          if p + header.size = st.brk then
            { st with
              blocks := if listHeadAddr st = listTailAddr st then
                  ([] : List Block)
                else st.blocks.dropLast,
              brk := st.brk - (headerSize + header.size) }
          else { st with blocks := setFreeAt header.addr st.blocks }) = _
    rw [hfind]
    show (if p + h.size = st.brk then
        { st with
          blocks := if listHeadAddr st = listTailAddr st then
              ([] : List Block)
            else st.blocks.dropLast,
          brk := st.brk - (headerSize + h.size) }
      else { st with blocks := setFreeAt h.addr st.blocks }) = _
    rw [if_pos hterm]
  have hsub : headerSize + h.size ≤ st.brk := by omega
  refine ⟨hlast, ?_, ?_, ?_⟩
  · intro hht
    rw [hfree]
    simp [hht]
  · intro hht
    rw [hfree]
    simp only [if_neg hht]
    refine ⟨by simp, ?_⟩
    intro q hq
    constructor
    · show (st.blocks.dropLast.getLast?.map Block.addr) = some q.addr
      rw [hq]
      rfl
    · exact nextOf_getLast st.base st.blocks.dropLast q
        (contiguousFrom_dropLast st.base st.blocks hcont) hq
  · rw [hfree]
    show st.brk = st.brk - (headerSize + h.size) + (headerSize + h.size)
    omega

/-! ## Frame lemmas for address-preserving list maps -/

theorem head?_map_addr {f : Block → Block} (hf : ∀ b, (f b).addr = b.addr)
    (bs : List Block) :
    ((bs.map f).head?.map Block.addr) = bs.head?.map Block.addr := by
  cases bs with
  | nil => rfl
  | cons b rest => simp [hf]

theorem getLast?_map_addr {f : Block → Block} (hf : ∀ b, (f b).addr = b.addr)
    (bs : List Block) :
    ((bs.map f).getLast?.map Block.addr) = bs.getLast?.map Block.addr := by
  rw [List.getLast?_map]
  cases hbs : bs.getLast? with
  | none => rfl
  | some b => simp [hf]

theorem nextOf_map {f : Block → Block} (hf : ∀ b, (f b).addr = b.addr)
    (a : Nat) (bs : List Block) : nextOf a (bs.map f) = nextOf a bs := by
  induction bs with
  | nil => rfl
  | cons b rest ih =>
      show (if (f b).addr = a then (rest.map f).head?.map Block.addr
          else nextOf a (rest.map f))
        = (if b.addr = a then rest.head?.map Block.addr else nextOf a rest)
      rw [hf b]
      by_cases hb : b.addr = a
      · rw [if_pos hb, if_pos hb]
        exact head?_map_addr hf rest
      · rw [if_neg hb, if_neg hb]
        exact ih

/-- Claim C9: releasing a block that is not heap-terminal only flips that
block's `is_free` to true: its size, payload and position are kept,
every other block is untouched, the list keeps its length (no
coalescing), `head`, `tail` and every `next` link are unchanged, and
the break does not move. -/
theorem free_nonterminal_frame (st : AllocState) (p : Nat) (h : Block)
    (hfind : findBlock p st = some h)
    (hnt : p + h.size ≠ st.brk) :
    free (some p) st =
      { st with blocks := st.blocks.map fun b =>
          if b.addr = h.addr then
            { addr := b.addr, size := b.size, is_free := true, data := b.data }
          else b } ∧
    (free (some p) st).brk = st.brk ∧
    (free (some p) st).blocks.length = st.blocks.length ∧
    listHeadAddr (free (some p) st) = listHeadAddr st ∧
    listTailAddr (free (some p) st) = listTailAddr st ∧
    (∀ a, nextOf a (free (some p) st).blocks = nextOf a st.blocks) := by
  have hfree : free (some p) st =
      { st with blocks := setFreeAt h.addr st.blocks } := by
    show (match findBlock p st with
      | none => st
      | some header =>
          if p + header.size = st.brk then
            { st with
              blocks := if listHeadAddr st = listTailAddr st then
                  ([] : List Block)
                else st.blocks.dropLast,
              brk := st.brk - (headerSize + header.size) }
          else { st with blocks := setFreeAt header.addr st.blocks }) = _
    rw [hfind]
    show (if p + h.size = st.brk then
        { st with
          blocks := if listHeadAddr st = listTailAddr st then
              ([] : List Block)
            else st.blocks.dropLast,
          brk := st.brk - (headerSize + h.size) }
      else { st with blocks := setFreeAt h.addr st.blocks }) = _
    rw [if_neg hnt]
  have hf : ∀ b : Block,
      ((if b.addr = h.addr then { b with is_free := true } else b) : Block).addr
        = b.addr := by
    intro b
    by_cases hb : b.addr = h.addr
    · rw [if_pos hb]
    · rw [if_neg hb]
  rw [hfree]
  refine ⟨rfl, rfl, by simp [setFreeAt], ?_, ?_, ?_⟩
  · exact head?_map_addr hf st.blocks
  · exact getLast?_map_addr hf st.blocks
  · intro a
    exact nextOf_map hf a st.blocks

/-! ## Malloc failure and calloc lemmas -/

/-- When malloc reports failure it has not touched the state. -/
theorem malloc_none (size : Nat) (st : AllocState)
    (h : (malloc size st).1 = none) : malloc size st = (none, st) := by
  by_cases hsz : size = 0
  · simp [malloc, hsz]
  · cases hfb : get_free_block size st.blocks with
    | some b => simp [malloc, hsz, hfb] at h
    | none =>
        by_cases hgrow : st.brk + (headerSize + size) ≤ st.brkLimit
        · simp [malloc, hsz, hfb, sbrkGrow, hgrow] at h
        · simp [malloc, hsz, hfb, sbrkGrow, hgrow]

/-- The wrapped product passes calloc's division check only when the true
product fits in `size_t`. -/
theorem overflow_check_fires (num nsize : Nat)
    (hov : sizeTMod ≤ num * nsize) :
    nsize ≠ ((num * nsize) % sizeTMod) / num := by
  intro heq
  have hlt : (num * nsize) % sizeTMod < sizeTMod :=
    Nat.mod_lt _ (by decide)
  have hle : num * (((num * nsize) % sizeTMod) / num)
      ≤ (num * nsize) % sizeTMod := Nat.mul_div_le _ _
  rw [← heq] at hle
  omega

/-- Claim C4: when the true product of nonzero `num` and `nsize` exceeds the
largest `size_t` value, the wrapped product fails the division check
and calloc returns null with the state untouched — allocate and the
heap growth primitive are never reached. -/
theorem calloc_overflow (num nsize : Nat) (st : AllocState)
    (h1 : num ≠ 0) (h2 : nsize ≠ 0) (hov : sizeTMod ≤ num * nsize) :
    nsize ≠ ((num * nsize) % sizeTMod) / num ∧
      calloc num nsize st = (none, st) := by
  have hchk := overflow_check_fires num nsize hov
  refine ⟨hchk, ?_⟩
  simp [calloc, h1, h2, hchk]

/-! ## Calloc zero-fill lemmas -/

/-- Bytes below the `memset` length read as zero. -/
theorem getElem?_memsetZero {n : Nat} (d : List Nat) {i : Nat} (hi : i < n) :
    (memsetZero n d)[i]? = some 0 := by
  show (List.replicate n 0 ++ d.drop n)[i]? = some 0
  rw [List.getElem?_append_left (by simpa using hi)]
  exact List.getElem?_replicate_of_lt hi

/-- Zero-filling at `p` rewrites exactly the block `findBlock` recovers. -/
theorem find?_map_zeroFill (p n : Nat) (bs : List Block) :
    (bs.map fun b =>
        if b.addr + headerSize = p then { b with data := memsetZero n b.data }
        else b).find? (fun b => b.addr + headerSize == p)
      = (bs.find? fun b => b.addr + headerSize == p).map
          fun b => { b with data := memsetZero n b.data } := by
  induction bs with
  | nil => rfl
  | cons b rest ih =>
      by_cases hb : b.addr + headerSize = p
      · simp only [List.map_cons]
        rw [List.find?_cons_of_pos _ (by simp [hb]),
          List.find?_cons_of_pos _ (by simp [hb])]
        simp [hb]
      · simp only [List.map_cons]
        rw [List.find?_cons_of_neg _ (by simp [hb]),
          List.find?_cons_of_neg _ (by simp [hb])]
        simpa [if_neg hb] using ih

/-- Unfolding equation for malloc when the request is zero. -/
theorem malloc_zero (st : AllocState) : malloc 0 st = (none, st) := rfl

/-- Unfolding equation for malloc on the reuse path. -/
theorem malloc_reuse_eq (size : Nat) (st : AllocState) (hb : Block)
    (hsz : size ≠ 0) (hfb : get_free_block size st.blocks = some hb) :
    malloc size st = (some (hb.addr + headerSize),
      { st with blocks := setUsedAt hb.addr st.blocks }) := by
  show (if size = 0 then (none, st)
    else
      match get_free_block size st.blocks with
      | some header =>
          (some (header.addr + headerSize),
           { st with blocks := setUsedAt header.addr st.blocks })
      | none =>
          match sbrkGrow (headerSize + size) st with
          | (none, st') => (none, st')
          | (some blockAddr, st') =>
              (some (blockAddr + headerSize),
               { st' with blocks := st'.blocks ++
                  [{ addr := blockAddr, size := size, is_free := false,
                     data := List.replicate size 0 }] })) = _
  rw [if_neg hsz, hfb]

/-- Unfolding equation for malloc on the growth path. -/
theorem malloc_grow_eq (size : Nat) (st : AllocState)
    (hsz : size ≠ 0) (hfb : get_free_block size st.blocks = none)
    (hgrow : st.brk + (headerSize + size) ≤ st.brkLimit) :
    malloc size st = (some (st.brk + headerSize),
      { base := st.base,
        blocks := st.blocks ++
          [{ addr := st.brk, size := size, is_free := false,
             data := List.replicate size 0 }],
        brk := st.brk + (headerSize + size), brkLimit := st.brkLimit }) := by
  have hsg : sbrkGrow (headerSize + size) st
      = (some st.brk, { st with brk := st.brk + (headerSize + size) }) := by
    show (if st.brk + (headerSize + size) ≤ st.brkLimit then
        (some st.brk, { st with brk := st.brk + (headerSize + size) })
      else (none, st)) = _
    rw [if_pos hgrow]
  show (if size = 0 then (none, st)
    else
      match get_free_block size st.blocks with
      | some header =>
          (some (header.addr + headerSize),
           { st with blocks := setUsedAt header.addr st.blocks })
      | none =>
          match sbrkGrow (headerSize + size) st with
          | (none, st') => (none, st')
          | (some blockAddr, st') =>
              (some (blockAddr + headerSize),
               { st' with blocks := st'.blocks ++
                  [{ addr := blockAddr, size := size, is_free := false,
                     data := List.replicate size 0 }] })) = _
  rw [if_neg hsz, hfb, hsg]

/-- A successful malloc hands out the payload address of a block present
in the resulting state. -/
theorem malloc_some_mem (size : Nat) (st : AllocState) (p : Nat)
    (st' : AllocState) (h : malloc size st = (some p, st')) :
    ∃ b ∈ st'.blocks, b.addr + headerSize = p := by
  by_cases hsz : size = 0
  · rw [hsz, malloc_zero] at h
    exact absurd h (by simp)
  · cases hfb : get_free_block size st.blocks with
    | some hb =>
        have hmem : hb ∈ st.blocks := by
          obtain ⟨-, -, l1, l2, hsplit, -⟩ := get_free_block_some hfb
          rw [hsplit]
          exact List.mem_append_right l1 (List.mem_cons_self hb l2)
        rw [malloc_reuse_eq size st hb hsz hfb] at h
        injection h with hp hst
        injection hp with hp
        refine ⟨{ hb with is_free := false }, ?_, hp⟩
        rw [← hst]
        have := List.mem_map_of_mem
          (fun b => if b.addr = hb.addr then { b with is_free := false }
            else b) hmem
        simpa [setUsedAt] using this
    | none =>
        by_cases hgrow : st.brk + (headerSize + size) ≤ st.brkLimit
        · rw [malloc_grow_eq size st hsz hfb hgrow] at h
          injection h with hp hst
          injection hp with hp
          refine ⟨{ addr := st.brk, size := size, is_free := false,
                    data := List.replicate size 0 }, ?_, hp⟩
          rw [← hst]
          simp
        · have : malloc size st = (none, st) := by
            apply malloc_none
            show (if size = 0 then ((none : Option Nat), st)
              else
                match get_free_block size st.blocks with
                | some header =>
                    (some (header.addr + headerSize),
                     { st with blocks := setUsedAt header.addr st.blocks })
                | none =>
                    match sbrkGrow (headerSize + size) st with
                    | (none, st') => (none, st')
                    | (some blockAddr, st') =>
                        (some (blockAddr + headerSize),
                         { st' with blocks := st'.blocks ++
                            [{ addr := blockAddr, size := size,
                               is_free := false,
                               data := List.replicate size 0 }] })).1 = none
            rw [if_neg hsz, hfb]
            have hsg : sbrkGrow (headerSize + size) st = (none, st) := by
              show (if st.brk + (headerSize + size) ≤ st.brkLimit then
                  (some st.brk, { st with brk := st.brk + (headerSize + size) })
                else (none, st)) = _
              rw [if_neg hgrow]
            rw [hsg]
          rw [this] at h
          exact absurd h (by simp)

/-- Claim C5, amended: after a successful calloc with nonzero arguments, the
first `num * nsize` bytes of the returned region all read as zero. -/
theorem calloc_zeroes_requested (num nsize : Nat) (st : AllocState) (p : Nat)
    (h1 : num ≠ 0) (h2 : nsize ≠ 0)
    (hsucc : (calloc num nsize st).1 = some p) :
    ∀ i < num * nsize,
      (payloadData p (calloc num nsize st).2)[i]? = some 0 := by
  by_cases hchk : nsize = ((num * nsize) % sizeTMod) / num
  · have hlt : num * nsize < sizeTMod := by
      by_contra hge
      exact overflow_check_fires num nsize (Nat.le_of_not_lt hge) hchk
    have hcal : calloc num nsize st =
        match malloc ((num * nsize) % sizeTMod) st with
        | (none, st2) => (none, st2)
        | (some q, st2) =>
            (some q, zeroFillAt q ((num * nsize) % sizeTMod) st2) := by
      show (if (num == 0 || nsize == 0) = true then (none, st)
        else if nsize ≠ ((num * nsize) % sizeTMod) / num then (none, st)
        else
          match malloc ((num * nsize) % sizeTMod) st with
          | (none, st2) => (none, st2)
          | (some q, st2) =>
              (some q, zeroFillAt q ((num * nsize) % sizeTMod) st2)) = _
      rw [if_neg (by simp [h1, h2]), if_neg (not_not_intro hchk)]
    cases hm : malloc ((num * nsize) % sizeTMod) st with
    | mk r st2 =>
        cases r with
        | none =>
            rw [hcal, hm] at hsucc
            exact absurd hsucc (by simp)
        | some q =>
            have hqp : q = p := by
              rw [hcal, hm] at hsucc
              simpa using hsucc
            subst hqp
            rw [hcal, hm]
            obtain ⟨b, hbmem, hbp⟩ :=
              malloc_some_mem ((num * nsize) % sizeTMod) st q st2 hm
            have hsome : (st2.blocks.find? fun b =>
                b.addr + headerSize == q).isSome :=
              List.find?_isSome.mpr ⟨b, hbmem, by simp [hbp]⟩
            obtain ⟨b0, hb0⟩ := Option.isSome_iff_exists.mp hsome
            have hfz : findBlock q
                (zeroFillAt q ((num * nsize) % sizeTMod) st2)
                = some { b0 with
                    data := memsetZero ((num * nsize) % sizeTMod) b0.data } := by
              show (st2.blocks.map fun b =>
                  if b.addr + headerSize = q then
                    { b with
                      data := memsetZero ((num * nsize) % sizeTMod) b.data }
                  else b).find? (fun b => b.addr + headerSize == q) = _
              rw [find?_map_zeroFill, hb0]
              rfl
            intro i hi
            show (payloadData q
              (zeroFillAt q ((num * nsize) % sizeTMod) st2))[i]? = some 0
            rw [show payloadData q (zeroFillAt q ((num * nsize) % sizeTMod) st2)
                = (findBlock q
                    (zeroFillAt q ((num * nsize) % sizeTMod) st2)).elim
                    [] Block.data from rfl, hfz]
            have hin : i < (num * nsize) % sizeTMod := by
              rw [Nat.mod_eq_of_lt hlt]
              exact hi
            exact getElem?_memsetZero b0.data hin
  · exfalso
    have hcal : calloc num nsize st = (none, st) := by
      show (if (num == 0 || nsize == 0) = true then (none, st)
        else if nsize ≠ ((num * nsize) % sizeTMod) / num then (none, st)
        else
          match malloc ((num * nsize) % sizeTMod) st with
          | (none, st2) => (none, st2)
          | (some q, st2) =>
              (some q, zeroFillAt q ((num * nsize) % sizeTMod) st2)) = _
      rw [if_neg (by simp [h1, h2]), if_pos hchk]
    rw [hcal] at hsucc
    exact absurd hsucc (by simp)

/-! ## Realloc lemmas -/

/-- Claim C6: a null address or a zero size makes realloc behave exactly as
malloc of the requested size, both in result and in state effect; with
a zero size this is a null result and an untouched state. -/
theorem realloc_null_or_zero (block : Option Nat) (size : Nat)
    (st : AllocState) (h : block = none ∨ size = 0) :
    realloc block size st = malloc size st ∧
      (size = 0 → realloc block size st = (none, st)) := by
  have hmain : realloc block size st = malloc size st := by
    cases block with
    | none => rfl
    | some p =>
        rcases h with hb | hs
        · exact Option.noConfusion hb
        · subst hs
          rfl
  refine ⟨hmain, fun hz => ?_⟩
  subst hz
  rw [hmain]
  rfl

/-- Claim C7: when the block's recorded size already covers a nonzero request,
realloc returns the same address and the state — every header, every
payload and the break — is exactly unchanged. -/
theorem realloc_within_size (p size : Nat) (st : AllocState) (h : Block)
    (hs : size ≠ 0) (hfind : findBlock p st = some h) (hc : size ≤ h.size) :
    realloc (some p) size st = (some p, st) := by
  show (if size = 0 then malloc size st
    else
      match findBlock p st with
      | none => (none, st)
      | some header =>
          if size ≤ header.size then (some p, st)
          else
            match malloc size st with
            | (none, st') => (none, st')
            | (some ret, st') =>
                (some ret, free (some p)
                  (memcpyAt ret ((payloadData p st').take header.size) st'))) = _
  rw [if_neg hs, hfind]
  show (if size ≤ h.size then (some p, st)
    else
      match malloc size st with
      | (none, st') => (none, st')
      | (some ret, st') =>
          (some ret, free (some p)
            (memcpyAt ret ((payloadData p st').take h.size) st'))) = _
  rw [if_pos hc]

/-- Claim C8: growing realloc whose inner malloc fails returns null and leaves
the state — in particular the old block, its header fields and its
contents — exactly as it was. -/
theorem realloc_failure_keeps_block (p size : Nat) (st : AllocState)
    (h : Block) (hs : size ≠ 0) (hfind : findBlock p st = some h)
    (hgt : h.size < size) (hfail : (malloc size st).1 = none) :
    realloc (some p) size st = (none, st) ∧
      findBlock p (realloc (some p) size st).2 = some h := by
  have hstate : malloc size st = (none, st) := malloc_none size st hfail
  have hmain : realloc (some p) size st = (none, st) := by
    show (if size = 0 then malloc size st
      else
        match findBlock p st with
        | none => (none, st)
        | some header =>
            if size ≤ header.size then (some p, st)
            else
              match malloc size st with
              | (none, st') => (none, st')
              | (some ret, st') =>
                  (some ret, free (some p)
                    (memcpyAt ret ((payloadData p st').take header.size) st'))) = _
    rw [if_neg hs, hfind]
    show (if size ≤ h.size then (some p, st)
      else
        match malloc size st with
        | (none, st') => (none, st')
        | (some ret, st') =>
            (some ret, free (some p)
              (memcpyAt ret ((payloadData p st').take h.size) st'))) = _
    rw [if_neg (by omega), hstate]
  refine ⟨hmain, ?_⟩
  rw [hmain]
  exact hfind

/-! ## Header layout -/

/-- Claim C10, amended: the header occupies `sizeof(header_t)` bytes — 24 under
the LP64 System V x86-64 ABI, because the struct member is 24 bytes and
exceeds the 16-byte `stub` — and every address malloc returns is its
block's header address plus exactly that one constant, so the header is
always recovered by subtracting it. -/
theorem header_offset_constant (size : Nat) (st : AllocState) (p : Nat)
    (st' : AllocState) (h : malloc size st = (some p, st')) :
    headerSize = 24 ∧
      ∃ b ∈ st'.blocks, b.addr + headerSize = p ∧ p - headerSize = b.addr := by
  refine ⟨by decide, ?_⟩
  obtain ⟨b, hb, hbp⟩ := malloc_some_mem size st p st' h
  exact ⟨b, hb, hbp, by omega⟩

/-! ## Counterexamples and concrete instantiations -/

/-- Counterexample to claim C5 as stated: in the reachable state `exSt4`
(reached by malloc, a client store of `[7, 7]`, a second malloc and a
release) `calloc 1 1` reuses the free block of size 2 and only zeroes
the single requested byte, so the full usable region of the returned
block reads `[0, 7]` — not all zeros. -/
theorem calloc_reuse_not_fully_zero :
    wf exSt4 = true ∧
    get_free_block 1 exSt4.blocks = some exB1free ∧
    (calloc 1 1 exSt4).1 = some 4120 ∧
    payloadData 4120 (calloc 1 1 exSt4).2 = [0, 7] ∧
    ¬ ∀ x ∈ payloadData 4120 (calloc 1 1 exSt4).2, x = 0 := by
  decide

/-- Counterexample to claim C10 as stated: `sizeof(union header)` is 24,
not 16, under the LP64 ABI — the struct member outgrows the 16-byte
stub — so the first malloc from a pristine heap at 4096 returns
4096 + 24, not 4096 + 16. -/
theorem header_not_16_bytes :
    sizeofUnionHeader = 24 ∧ ¬ sizeofUnionHeader = 16 ∧
    (malloc 1 (initState 4096 8192)).1 = some (4096 + 24) ∧
    ¬ (malloc 1 (initState 4096 8192)).1 = some (4096 + 16) := by
  decide

/-- Witness for claim C1: releasing the heap-terminal block of `exSt3`. -/
theorem free_terminal_trims_witness :
    wf exSt3 = true ∧ findBlock 4146 exSt3 = some exB2 ∧
      4146 + exB2.size = exSt3.brk ∧
      (exSt3.blocks.getLast? = some exB2 ∧
        (listHeadAddr exSt3 = listTailAddr exSt3 →
          (free (some 4146) exSt3).blocks = []) ∧
        (listHeadAddr exSt3 ≠ listTailAddr exSt3 →
          (free (some 4146) exSt3).blocks = exSt3.blocks.dropLast ∧
          ∀ q, exSt3.blocks.dropLast.getLast? = some q →
            listTailAddr (free (some 4146) exSt3) = some q.addr ∧
            nextOf q.addr (free (some 4146) exSt3).blocks = none) ∧
        exSt3.brk = (free (some 4146) exSt3).brk + (headerSize + exB2.size)) :=
  ⟨by decide, by decide, by decide,
    free_terminal_trims exSt3 4146 exB2 (by decide) (by decide) (by decide)⟩

/-- Witness for claim C3: `malloc 1` reuses the free size-2 block of
`exSt4` without touching its recorded size or contents. -/
theorem malloc_reuse_frame_witness :
    (1 : Nat) ≠ 0 ∧ get_free_block 1 exSt4.blocks = some exB1free ∧
      (malloc 1 exSt4 =
        (some (exB1free.addr + headerSize),
          { exSt4 with blocks := exSt4.blocks.map fun b =>
              if b.addr = exB1free.addr then
                { addr := b.addr, size := b.size, is_free := false,
                  data := b.data }
              else b }) ∧
        exB1free.is_free = true ∧ 1 ≤ exB1free.size) :=
  ⟨by decide, by decide,
    malloc_reuse_frame 1 exSt4 exB1free (by decide) (by decide)⟩

/-- Witness for claim C4: `2^63 * 2` overflows `size_t`, so calloc
rejects it without touching the state. -/
theorem calloc_overflow_witness :
    (2 ^ 63 : Nat) ≠ 0 ∧ (2 : Nat) ≠ 0 ∧ sizeTMod ≤ 2 ^ 63 * 2 ∧
      ((2 : Nat) ≠ ((2 ^ 63 * 2) % sizeTMod) / 2 ^ 63 ∧
        calloc (2 ^ 63) 2 (initState 4096 8192)
          = (none, initState 4096 8192)) :=
  ⟨by decide, by decide, by decide,
    calloc_overflow (2 ^ 63) 2 (initState 4096 8192) (by decide) (by decide)
      (by decide)⟩

/-- Witness for claim C5, amended: the one requested byte of
`calloc 1 1` on `exSt4` reads as zero. -/
theorem calloc_zeroes_requested_witness :
    (1 : Nat) ≠ 0 ∧ (1 : Nat) ≠ 0 ∧ (calloc 1 1 exSt4).1 = some 4120 ∧
      ∀ i < 1 * 1, (payloadData 4120 (calloc 1 1 exSt4).2)[i]? = some 0 :=
  ⟨by decide, by decide, by decide,
    calloc_zeroes_requested 1 1 exSt4 4120 (by decide) (by decide) (by decide)⟩

/-- Witness for claim C6: realloc with a null address delegates to
malloc. -/
theorem realloc_null_or_zero_witness :
    ((none : Option Nat) = none ∨ (5 : Nat) = 0) ∧
      (realloc none 5 (initState 4096 8192) = malloc 5 (initState 4096 8192) ∧
        ((5 : Nat) = 0 → realloc none 5 (initState 4096 8192)
          = (none, initState 4096 8192))) :=
  ⟨Or.inl rfl, realloc_null_or_zero none 5 (initState 4096 8192) (Or.inl rfl)⟩

/-- Witness for claim C7: resizing the size-2 block of `exSt2` to 2 is a
no-op returning the same address. -/
theorem realloc_within_size_witness :
    (2 : Nat) ≠ 0 ∧ findBlock 4120 exSt2 = some exB1used ∧
      2 ≤ exB1used.size ∧
      realloc (some 4120) 2 exSt2 = (some 4120, exSt2) :=
  ⟨by decide, by decide, by decide,
    realloc_within_size 4120 2 exSt2 exB1used (by decide) (by decide)
      (by decide)⟩

/-- Witness for claim C8: with the break limit at 4123 the inner malloc of
a growing realloc fails and the old block survives untouched. -/
theorem realloc_failure_keeps_block_witness :
    (5 : Nat) ≠ 0 ∧ findBlock 4120 exStTight = some exB1used ∧
      exB1used.size < 5 ∧ (malloc 5 exStTight).1 = none ∧
      (realloc (some 4120) 5 exStTight = (none, exStTight) ∧
        findBlock 4120 (realloc (some 4120) 5 exStTight).2 = some exB1used) :=
  ⟨by decide, by decide, by decide, by decide,
    realloc_failure_keeps_block 4120 5 exStTight exB1used (by decide)
      (by decide) (by decide) (by decide)⟩

/-- Witness for claim C9: releasing the non-terminal first block of
`exSt3` only flips its `is_free` flag. -/
theorem free_nonterminal_frame_witness :
    findBlock 4120 exSt3 = some exB1used ∧
      4120 + exB1used.size ≠ exSt3.brk ∧
      (free (some 4120) exSt3 =
          { exSt3 with blocks := exSt3.blocks.map fun b =>
              if b.addr = exB1used.addr then
                { addr := b.addr, size := b.size, is_free := true,
                  data := b.data }
              else b } ∧
        (free (some 4120) exSt3).brk = exSt3.brk ∧
        (free (some 4120) exSt3).blocks.length = exSt3.blocks.length ∧
        listHeadAddr (free (some 4120) exSt3) = listHeadAddr exSt3 ∧
        listTailAddr (free (some 4120) exSt3) = listTailAddr exSt3 ∧
        ∀ a, nextOf a (free (some 4120) exSt3).blocks
          = nextOf a exSt3.blocks) :=
  ⟨by decide, by decide,
    free_nonterminal_frame exSt3 4120 exB1used (by decide) (by decide)⟩

/-- Witness for claim C10, amended: the first malloc from a pristine heap
at 4096 returns 4096 + 24 for the block whose header sits at 4096. -/
theorem header_offset_constant_witness :
    malloc 1 (initState 4096 8192) = (some 4120, exStOne) ∧
      (headerSize = 24 ∧
        ∃ b ∈ exStOne.blocks, b.addr + headerSize = 4120 ∧
          4120 - headerSize = b.addr) :=
  ⟨by decide,
    header_offset_constant 1 (initState 4096 8192) 4120 exStOne (by decide)⟩

end Alloc
